import Mathlib

/-!
Verification development for the carbon_easy_builder repository.

The geometric core is shallowly embedded:
* vectors are triples of scalars (`V3`);
* atom clusters are lists of positions paired with integer ids
  (`AtomCluster`, from carbon_easy_builder/atom_cluster.py);
* the periodic box and its algorithms (wrapping, nanotube axis
  detection) are embedded over `ℚ` (carbon_easy_builder/box.py) —
  where the source compares a Euclidean norm against a bound both
  sides are squared, which is equivalent for nonnegative bounds and
  keeps every predicate decidable;
* the lattice generators and the cylinder-deletion mask, whose
  coordinates genuinely involve square roots, are embedded over `ℝ`
  (carbon_easy_builder/graphene.py, nanotube.py, box.py).

Fallible code (`Box.get_nanotube_axis`, which raises `ValueError`)
is embedded with `Option`.
-/

/-- A 3-component vector, the shallow embedding of a numpy row of
shape `(3,)`. -/
@[ext]
structure V3 (α : Type) where
  x : α
  y : α
  z : α
deriving DecidableEq

instance {α : Type} [Add α] : Add (V3 α) :=
  ⟨fun a b => ⟨a.x + b.x, a.y + b.y, a.z + b.z⟩⟩

instance {α : Type} [Sub α] : Sub (V3 α) :=
  ⟨fun a b => ⟨a.x - b.x, a.y - b.y, a.z - b.z⟩⟩

instance {α : Type} [Zero α] : Zero (V3 α) := ⟨⟨0, 0, 0⟩⟩

instance {α : Type} [Zero α] : Inhabited (V3 α) := ⟨0⟩

/-- Scalar multiple of a vector. -/
def V3.smul {α : Type} [Mul α] (c : α) (v : V3 α) : V3 α :=
  ⟨c * v.x, c * v.y, c * v.z⟩

/-- Dot product (`np.dot` on 3-vectors). -/
def V3.dot {α : Type} [Mul α] [Add α] (a b : V3 α) : α :=
  a.x * b.x + a.y * b.y + a.z * b.z

/-- Squared Euclidean norm: `np.linalg.norm(v)**2`. -/
def V3.normSq {α : Type} [Mul α] [Add α] (v : V3 α) : α :=
  V3.dot v v

/-- Cross product (`np.cross` on 3-vectors). -/
def V3.cross {α : Type} [Mul α] [Sub α] (a b : V3 α) : V3 α :=
  ⟨a.y * b.z - a.z * b.y, a.z * b.x - a.x * b.z, a.x * b.y - a.y * b.x⟩

/-- Componentwise mean of a list of vectors: `np.mean(l, axis=0)`. -/
def centroid {α : Type} [Field α] (l : List (V3 α)) : V3 α :=
  ⟨(l.map V3.x).sum / (l.length : α),
   (l.map V3.y).sum / (l.length : α),
   (l.map V3.z).sum / (l.length : α)⟩

/-- An atom cluster: positions paired with atom ids plus the cached
atom count, as in `AtomCluster.__init__` (atom_cluster.py lines 5-15). -/
structure AtomCluster (α : Type) where
  positions : List (V3 α)
  atom_ids : List ℤ
  num_atoms : ℕ
deriving DecidableEq

/-- The `AtomCluster` representation invariant maintained by the
source: `len(positions) == len(atom_ids)` and the cached count agrees. -/
def AtomCluster.wellFormed {α : Type} (c : AtomCluster α) : Prop :=
  c.positions.length = c.num_atoms ∧ c.atom_ids.length = c.num_atoms

/-- Keep the entries of `l` at indices where `mask` is `false`.
This is the common semantics of the two deletions in
`AtomCluster.delete_atoms` (atom_cluster.py lines 72-73): numpy boolean
indexing `positions[~mask]` and the comprehension
`[id for id, keep in zip(ids, ~mask) if keep]`, which agree whenever
`mask` has the cluster's length. -/
def keepFalse {α : Type} : List α → List Bool → List α
  | [], _ => []
  | _, [] => []
  | a :: as, b :: bs => if b then keepFalse as bs else a :: keepFalse as bs

/-- Embeds `AtomCluster.delete_atoms` (atom_cluster.py lines 65-74): drop the
atoms marked `true` in the mask and recompute `num_atoms`. -/
def AtomCluster.delete_atoms {α : Type} (c : AtomCluster α) (mask : List Bool) :
    AtomCluster α :=
  { positions := keepFalse c.positions mask
    atom_ids := keepFalse c.atom_ids mask
    num_atoms := (keepFalse c.atom_ids mask).length }

/-- Embeds `AtomCluster.translate` (atom_cluster.py lines 17-24):
`self.positions += vector`. -/
def AtomCluster.translate {α : Type} [Add α] (c : AtomCluster α) (v : V3 α) :
    AtomCluster α :=
  { c with positions := c.positions.map (fun p => p + v) }

/-- Euclidean norm over `ℝ`: `np.linalg.norm`. -/
noncomputable def norm3 (v : V3 ℝ) : ℝ :=
  Real.sqrt v.normSq

/-- Embeds `AtomCluster.rotate` (atom_cluster.py lines 26-54): Rodrigues
rotation of every position about the line through `center` (default:
the centroid) with direction `axis`. -/
noncomputable def AtomCluster.rotate (c : AtomCluster ℝ) (axis : V3 ℝ)
    (angle : ℝ) (center : Option (V3 ℝ)) : AtomCluster ℝ :=
  let ctr := center.getD (centroid c.positions)
  let u := V3.smul (1 / norm3 axis) axis
  { c with positions := c.positions.map (fun p =>
      let v := p - ctr
      (V3.smul (Real.cos angle) v +
        V3.smul (Real.sin angle) (V3.cross u v) +
        V3.smul ((1 - Real.cos angle) * V3.dot v u) u) + ctr) }

/-- Rational counterpart of `np.mod(x, m) = x - m*floor(x/m)`
(true modulo, nonnegative for positive `m`). -/
def qmod (x m : ℚ) : ℚ :=
  x - m * ⌊x / m⌋

/-- The periodic box (box.py lines 7-22): a fixed size, centered on
the origin. -/
structure Box where
  boxSize : V3 ℚ
deriving DecidableEq

/-- Embeds `self.box_min = -self.box_size / 2` (box.py line 20). -/
def Box.boxMin (b : Box) : V3 ℚ :=
  V3.smul (-1 / 2) b.boxSize

/-- One coordinate of the wrapping step of `Box.wrap_cluster`
(box.py line 49): `((x - box_min) % box_size) + box_min`. -/
def wrapCoord (mn size x : ℚ) : ℚ :=
  qmod (x - mn) size + mn

/-- Componentwise wrap of a position into the box (box.py lines 48-49). -/
def Box.wrapV3 (b : Box) (p : V3 ℚ) : V3 ℚ :=
  ⟨wrapCoord b.boxMin.x b.boxSize.x p.x,
   wrapCoord b.boxMin.y b.boxSize.y p.y,
   wrapCoord b.boxMin.z b.boxSize.z p.z⟩

/-- Embeds `Box.wrap_cluster` (box.py lines 39-49): wrap every atom of the
cluster into the box. -/
def Box.wrap_cluster (b : Box) (c : AtomCluster ℚ) : AtomCluster ℚ :=
  { c with positions := c.positions.map b.wrapV3 }

/-- Squared minimum-image distance between two positions
(box.py lines 156-158): the difference vector is remapped
componentwise by `np.mod(diff + box_size/2, box_size) - box_size/2`
and its norm taken; here the squared norm. -/
def minImageDistSq (b : Box) (p q : V3 ℚ) : ℚ :=
  let d := q - p
  let w : V3 ℚ :=
    ⟨qmod (d.x + b.boxSize.x / 2) b.boxSize.x - b.boxSize.x / 2,
     qmod (d.y + b.boxSize.y / 2) b.boxSize.y - b.boxSize.y / 2,
     qmod (d.z + b.boxSize.z / 2) b.boxSize.z - b.boxSize.z / 2⟩
  w.normSq

/-- The row sum `np.sum(distances < 1.5, axis=1)` of
`Box.get_nanotube_axis` (box.py line 161) for the row of atom `p`:
the number of list entries (the atom itself included, because the
diagonal of the distance matrix is `0`) whose minimum-image distance
to `p` is below `1.5`; distances are compared squared
(`d < 1.5` iff `d² < 9/4`). -/
def closeCount (b : Box) (ps : List (V3 ℚ)) (p : V3 ℚ) : ℕ :=
  (ps.filter (fun q => minImageDistSq b p q < 9 / 4)).length

/-- Embeds `end_atoms = positions[neighbor_count == 3]` (box.py line 162). -/
def endAtoms (b : Box) (ps : List (V3 ℚ)) : List (V3 ℚ) :=
  ps.filter (fun p => closeCount b ps p = 3)

/-- Embeds `z_mid = (z_min + z_max) / 2` over the end atoms
(box.py lines 164-166); `0` when there is no end atom (the source
raises there, see `getNanotubeAxis`). -/
def zMid (b : Box) (ps : List (V3 ℚ)) : ℚ :=
  match ((endAtoms b ps).map V3.z).min?, ((endAtoms b ps).map V3.z).max? with
  | some zmin, some zmax => (zmin + zmax) / 2
  | _, _ => 0

/-- Embeds `group1 = end_atoms[z_coords < z_mid]` (box.py line 169). -/
def group1 (b : Box) (ps : List (V3 ℚ)) : List (V3 ℚ) :=
  (endAtoms b ps).filter (fun p => p.z < zMid b ps)

/-- Embeds `group2 = end_atoms[z_coords > z_mid]` (box.py line 170). -/
def group2 (b : Box) (ps : List (V3 ℚ)) : List (V3 ℚ) :=
  (endAtoms b ps).filter (fun p => zMid b ps < p.z)

/-- Embeds `Box.get_nanotube_axis` (box.py lines 135-182) on a tube with
positions `ps` and chirality index `n`.  `none` models the two error
exits: the explicit `ValueError` when a group size differs from `2n`
(lines 174-176), and the `ValueError` that `np.min`/`np.max` raise on
line 165 when there is no end atom at all.  Otherwise the pair of
group centroids is returned (lines 179-182). -/
def getNanotubeAxis (b : Box) (ps : List (V3 ℚ)) (n : ℕ) :
    Option (V3 ℚ × V3 ℚ) :=
  if (endAtoms b ps).isEmpty then none
  else if (group1 b ps).length = 2 * n ∧ (group2 b ps).length = 2 * n then
    some (centroid (group1 b ps), centroid (group2 b ps))
  else none

/-- Embeds `axis_direction = axis_vector / axis_length` of
`Box.delete_atoms_in_cnt` (box.py lines 193-196), for the axis from
`s` to `e`. -/
noncomputable def cntAxisDir (s e : V3 ℝ) : V3 ℝ :=
  V3.smul (1 / norm3 (e - s)) (e - s)

/-- Embeds `projections = np.dot(relative_positions, axis_direction)`
(box.py lines 200-201) for one atom `p`. -/
noncomputable def cntProjection (s e p : V3 ℝ) : ℝ :=
  V3.dot (p - s) (cntAxisDir s e)

/-- Embeds `perpendicular_distances` (box.py lines 207-209) for one atom `p`:
the norm of the relative position minus its component parallel to the
axis direction. -/
noncomputable def cntPerpDist (s e p : V3 ℝ) : ℝ :=
  norm3 ((p - s) - V3.smul (cntProjection s e p) (cntAxisDir s e))

/-- The deletion mask of `Box.delete_atoms_in_cnt`
(box.py lines 204-212) at one atom: the projection lies within the
tube's axial extent with slack `0.01` at both ends, and the
perpendicular distance to the axis is at most the tube radius `r`. -/
noncomputable def cntDeleteMask (s e : V3 ℝ) (r : ℝ) (p : V3 ℝ) : Prop :=
  (-0.01 ≤ cntProjection s e p ∧ cntProjection s e p ≤ norm3 (e - s) + 0.01) ∧
    cntPerpDist s e p ≤ r

open Classical in
/-- The positions surviving `Box.delete_atoms_in_cnt`
(box.py lines 211-216): exactly the atoms where the deletion mask is
false, in their original order (when no atom matches, the source
skips the `delete_atoms` call, which leaves the same survivors). -/
noncomputable def deleteAtomsInCnt (s e : V3 ℝ) (r : ℝ) (ps : List (V3 ℝ)) :
    List (V3 ℝ) :=
  ps.filter (fun p => decide (¬ cntDeleteMask s e r p))

/-- The deletion mask of `Graphene.dig_hole` (graphene.py lines 53-59)
at one atom: the Euclidean distance to the hole center is at most the
radius.  `‖p - c‖ ≤ r` is stated squared as `0 ≤ r ∧ ‖p - c‖² ≤ r²`,
which is equivalent since the norm is nonnegative. -/
def digHoleMask (c : V3 ℚ) (r : ℚ) (p : V3 ℚ) : Prop :=
  0 ≤ r ∧ (p - c).normSq ≤ r ^ 2

instance (c : V3 ℚ) (r : ℚ) (p : V3 ℚ) : Decidable (digHoleMask c r p) := by
  unfold digHoleMask; infer_instance

/-- Embeds `Graphene.dig_hole` (graphene.py lines 45-68): delete every atom
within `radius` of `hole_center` via `delete_atoms`. -/
def digHole (center : V3 ℚ) (radius : ℚ) (cl : AtomCluster ℚ) :
    AtomCluster ℚ :=
  cl.delete_atoms (cl.positions.map (fun p => decide (digHoleMask center radius p)))

/-- Number of atoms removed by `dig_hole`
(`num_removed = np.sum(delete_mask)`, graphene.py line 62). -/
def digHoleRemoved (center : V3 ℚ) (radius : ℚ) (cl : AtomCluster ℚ) : ℕ :=
  ((cl.positions.map (fun p => decide (digHoleMask center radius p))).filter
    (fun b => b = true)).length

/-- Graphene lattice vector `a1 = (√3·d, 0, 0)`
(graphene.py line 19). -/
noncomputable def grLatA1 (d : ℝ) : V3 ℝ :=
  ⟨Real.sqrt 3 * d, 0, 0⟩

/-- Graphene lattice vector `a2 = (√3·d/2, 3d/2, 0)`
(graphene.py line 20). -/
noncomputable def grLatA2 (d : ℝ) : V3 ℝ :=
  ⟨Real.sqrt 3 * d / 2, 3 * d / 2, 0⟩

/-- The two basis atoms of the graphene unit cell
(graphene.py lines 23-26). -/
noncomputable def grBasis (d : ℝ) : List (V3 ℝ) :=
  [⟨0, 0, 0⟩, ⟨Real.sqrt 3 * d / 2, d / 2, 0⟩]

/-- Integer multiple of a vector. -/
def V3.nsmul {α : Type} [Mul α] [NatCast α] (k : ℕ) (v : V3 α) : V3 α :=
  V3.smul (k : α) v

/-- The position list built by `Graphene.__init__`
(graphene.py lines 29-40): for `i` in `range(nx)`, for `j` in
`range(2*ny)`, the cell origin `i*a1 + j*a2` plus each of the two
basis atoms, in that order. -/
noncomputable def graphenePositions (nx ny : ℕ) (d : ℝ) : List (V3 ℝ) :=
  (List.range nx).flatMap (fun i =>
    (List.range (2 * ny)).flatMap (fun j =>
      (grBasis d).map (fun b => V3.nsmul i (grLatA1 d) + V3.nsmul j (grLatA2 d) + b)))

/-- Embeds `atom_ids = list(range(1, len(positions) + 1))`
(graphene.py line 41). -/
noncomputable def grapheneAtomIds (nx ny : ℕ) (d : ℝ) : List ℕ :=
  List.range' 1 (graphenePositions nx ny d).length

/-- Nanotube lattice vector `a1` (nanotube.py line 16). -/
noncomputable def cntLatA1 (d : ℝ) : V3 ℝ :=
  ⟨Real.sqrt 3 * d, 0, 0⟩

/-- Nanotube lattice vector `a2` (nanotube.py line 17). -/
noncomputable def cntLatA2 (d : ℝ) : V3 ℝ :=
  ⟨Real.sqrt 3 * d / 2, 3 * d / 2, 0⟩

/-- The flat 2-D patch `atoms2D` of `CarbonNanotube.__init__`
(nanotube.py lines 29-35): for `u` in `range(2*n)`, for `v` in
`(0, 1)`, the point `u*a1 + v*a2` plus each of the two sublattice
offsets `(0,0)` and `(1/3, 1/3)` in `(a1, a2)` coordinates. -/
noncomputable def atoms2D (n : ℕ) (d : ℝ) : List (V3 ℝ) :=
  (List.range (2 * n)).flatMap (fun u =>
    ([0, 1] : List ℕ).flatMap (fun v =>
      ([(0, 0), (1/3, 1/3)] : List (ℝ × ℝ)).map (fun fxy =>
        (V3.nsmul u (cntLatA1 d) + V3.nsmul v (cntLatA2 d)) +
          (V3.smul fxy.1 (cntLatA1 d) + V3.smul fxy.2 (cntLatA2 d)))))

/-- Real counterpart of `np.mod`: `x - m*floor(x/m)`. -/
noncomputable def rmod (x m : ℝ) : ℝ :=
  x - m * ⌊x / m⌋

/-- The raw (pre-deduplication) candidate list `raw_pos` of
`CarbonNanotube.__init__` (nanotube.py lines 37-45): each of the `p`
axial replicas shifts the flat patch by `k*T` and maps each point to
the cylinder via `φ = (2π·(Q·Ĉh)/|Ch|) mod 2π`, `z = Q·T̂`,
emitting `(R·cos φ, R·sin φ, z)`. -/
noncomputable def rawPos (n p : ℕ) (d : ℝ) : List (V3 ℝ) :=
  let a1 := cntLatA1 d
  let a2 := cntLatA2 d
  let Ch := V3.nsmul n (a1 + a2)
  let T := a1 - a2
  let R := 3 * d * n / (2 * Real.pi)
  let ChU := V3.smul (1 / norm3 Ch) Ch
  let TU := V3.smul (1 / norm3 T) T
  let ChLen := norm3 Ch
  (List.range p).flatMap (fun k =>
    (atoms2D n d).map (fun r2 =>
      let Q := r2 + V3.nsmul k T
      let phi := rmod (2 * Real.pi * V3.dot Q ChU / ChLen) (2 * Real.pi)
      let z := V3.dot Q TU
      (⟨R * Real.cos phi, R * Real.sin phi, z⟩ : V3 ℝ)))

/-! ## Helper lemmas -/

lemma length_flatMap_const {α β : Type} (l : List β) (f : β → List α) (c : ℕ)
    (h : ∀ u ∈ l, (f u).length = c) : (l.flatMap f).length = l.length * c := by
  induction l with
  | nil => simp
  | cons hd tl ih =>
    simp only [List.flatMap_cons, List.length_append, List.length_cons,
      h hd (List.mem_cons_self hd tl)]
    rw [ih (fun u hu => h u (List.mem_cons_of_mem hd hu))]
    ring

lemma getElem?_flatMap_const {α β : Type} (f : β → List α) (c : ℕ)
    (l : List β) (h : ∀ u ∈ l, (f u).length = c) (i k : ℕ)
    (hi : i < l.length) (hk : k < c) :
    (l.flatMap f)[i * c + k]? = (f (l.get ⟨i, hi⟩))[k]? := by
  induction l generalizing i with
  | nil => simp at hi
  | cons hd tl ih =>
    rcases i with - | i
    · have hlen : (f hd).length = c := h hd (List.mem_cons_self hd tl)
      simp only [List.flatMap_cons, List.get]
      rw [List.getElem?_append_left (by omega)]
      simp
    · have hlen : (f hd).length = c := h hd (List.mem_cons_self hd tl)
      simp only [List.flatMap_cons, List.get]
      rw [List.getElem?_append_right (by rw [hlen]; nlinarith)]
      have harith : (i + 1) * c + k - (f hd).length = i * c + k := by
        rw [hlen]; ring_nf; omega
      rw [harith]
      exact ih (fun u hu => h u (List.mem_cons_of_mem hd hu)) i (by simpa using hi)

@[simp] lemma V3.add_x {α : Type} [Add α] (a b : V3 α) : (a + b).x = a.x + b.x := rfl

@[simp] lemma V3.add_y {α : Type} [Add α] (a b : V3 α) : (a + b).y = a.y + b.y := rfl

@[simp] lemma V3.add_z {α : Type} [Add α] (a b : V3 α) : (a + b).z = a.z + b.z := rfl

@[simp] lemma V3.sub_x {α : Type} [Sub α] (a b : V3 α) : (a - b).x = a.x - b.x := rfl

@[simp] lemma V3.sub_y {α : Type} [Sub α] (a b : V3 α) : (a - b).y = a.y - b.y := rfl

@[simp] lemma V3.sub_z {α : Type} [Sub α] (a b : V3 α) : (a - b).z = a.z - b.z := rfl

@[simp] lemma V3.smul_x {α : Type} [Mul α] (c : α) (v : V3 α) :
    (V3.smul c v).x = c * v.x := rfl

@[simp] lemma V3.smul_y {α : Type} [Mul α] (c : α) (v : V3 α) :
    (V3.smul c v).y = c * v.y := rfl

@[simp] lemma V3.smul_z {α : Type} [Mul α] (c : α) (v : V3 α) :
    (V3.smul c v).z = c * v.z := rfl

lemma graphenePositions_length (nx ny : ℕ) (d : ℝ) :
    (graphenePositions nx ny d).length = 4 * nx * ny := by
  unfold graphenePositions
  rw [length_flatMap_const _ _ (2 * ny * 2)
    (fun u _ => by
      rw [length_flatMap_const _ _ 2 (fun v _ => by simp [grBasis])]
      simp)]
  simp [List.length_range]
  ring

lemma atoms2D_length (n : ℕ) (d : ℝ) : (atoms2D n d).length = 8 * n := by
  unfold atoms2D
  rw [length_flatMap_const _ _ 4 (fun u _ => by simp)]
  simp [List.length_range]
  ring

lemma rawPos_length (n p : ℕ) (d : ℝ) : (rawPos n p d).length = 8 * n * p := by
  unfold rawPos
  rw [length_flatMap_const _ _ (8 * n) (fun k _ => by simp [atoms2D_length])]
  simp [List.length_range]
  ring

lemma graphenePositions_getElem (nx ny : ℕ) (d : ℝ) (i j : ℕ)
    (hi : i < nx) (hj : j < 2 * ny) :
    (graphenePositions nx ny d)[2 * (i * (2 * ny) + j)]? =
      some (V3.nsmul i (grLatA1 d) + V3.nsmul j (grLatA2 d) + ⟨0, 0, 0⟩) ∧
    (graphenePositions nx ny d)[2 * (i * (2 * ny) + j) + 1]? =
      some (V3.nsmul i (grLatA1 d) + V3.nsmul j (grLatA2 d) +
        ⟨Real.sqrt 3 * d / 2, d / 2, 0⟩) := by
  have hinner : ∀ u ∈ List.range nx,
      ((List.range (2 * ny)).flatMap (fun j =>
        (grBasis d).map (fun b =>
          V3.nsmul u (grLatA1 d) + V3.nsmul j (grLatA2 d) + b))).length
        = 2 * ny * 2 := by
    intro u _
    rw [length_flatMap_const _ _ 2 (fun v _ => by simp [grBasis])]
    simp
  have hbasis : ∀ (u v : ℕ), ∀ w ∈ List.range (2 * ny),
      ((grBasis d).map (fun b =>
        V3.nsmul u (grLatA1 d) + V3.nsmul w (grLatA2 d) + b)).length = 2 :=
    fun u v w _ => by simp [grBasis]
  constructor
  · have h1 : 2 * (i * (2 * ny) + j) = i * (2 * ny * 2) + (j * 2 + 0) := by ring
    unfold graphenePositions
    rw [h1, getElem?_flatMap_const _ (2 * ny * 2) _ hinner i (j * 2 + 0)
      (by simpa using hi) (by omega)]
    rw [List.get_range]
    rw [getElem?_flatMap_const _ 2 _ (hbasis i 0) j 0
      (by simpa using hj) (by omega)]
    rw [List.get_range]
    simp [grBasis]
  · have h1 : 2 * (i * (2 * ny) + j) + 1 = i * (2 * ny * 2) + (j * 2 + 1) := by
      ring
    unfold graphenePositions
    rw [h1, getElem?_flatMap_const _ (2 * ny * 2) _ hinner i (j * 2 + 1)
      (by simpa using hi) (by omega)]
    rw [List.get_range]
    rw [getElem?_flatMap_const _ 2 _ (hbasis i 0) j 1
      (by simpa using hj) (by omega)]
    rw [List.get_range]
    simp [grBasis]

lemma graphenePositions_z (nx ny : ℕ) (d : ℝ) :
    (graphenePositions nx ny d).map V3.z = List.replicate (4 * nx * ny) 0 := by
  rw [List.eq_replicate_iff]
  constructor
  · simp [graphenePositions_length]
  · intro b hb
    simp only [List.mem_map] at hb
    obtain ⟨q, hq, hqz⟩ := hb
    simp only [graphenePositions, List.mem_flatMap, List.mem_map,
      List.mem_range, grBasis, List.mem_cons, List.not_mem_nil, or_false] at hq
    obtain ⟨i, -, j, -, b0, hb0, hq⟩ := hq
    subst hq
    subst hqz
    rcases hb0 with h | h <;> subst h <;>
      simp [V3.nsmul, grLatA1, grLatA2]

lemma qmod_mul_self (x m : ℚ) (hm : 0 < m) : m * (x / m) = x := by
  field_simp

lemma qmod_nonneg (x m : ℚ) (hm : 0 < m) : 0 ≤ qmod x m := by
  unfold qmod
  have h1 : ((⌊x / m⌋ : ℚ)) ≤ x / m := Int.floor_le _
  have h2 := mul_le_mul_of_nonneg_left h1 hm.le
  rw [qmod_mul_self x m hm] at h2
  linarith

lemma qmod_lt (x m : ℚ) (hm : 0 < m) : qmod x m < m := by
  unfold qmod
  have h1 : x / m < (⌊x / m⌋ : ℚ) + 1 := Int.lt_floor_add_one _
  have h2 := mul_lt_mul_of_pos_left h1 hm
  rw [qmod_mul_self x m hm] at h2
  linarith [h2, mul_add m ((⌊x / m⌋ : ℚ)) 1]

lemma qmod_eq_self (x m : ℚ) (hm : 0 < m) (h0 : 0 ≤ x) (h1 : x < m) :
    qmod x m = x := by
  unfold qmod
  have hf : ⌊x / m⌋ = 0 := by
    rw [Int.floor_eq_zero_iff]
    constructor
    · positivity
    · rw [div_lt_one hm] at *
      exact h1
  rw [hf]
  push_cast
  ring

lemma qmod_idem (x m : ℚ) (hm : 0 < m) : qmod (qmod x m) m = qmod x m :=
  qmod_eq_self _ m hm (qmod_nonneg x m hm) (qmod_lt x m hm)

lemma keepFalse_eq_select {α : Type} [Inhabited α] (l : List α) (m : List Bool)
    (h : l.length = m.length) :
    keepFalse l m = ((List.range l.length).filter
      (fun i => m.getD i true = false)).map (fun i => l.getD i default) := by
  induction l generalizing m with
  | nil => simp [keepFalse]
  | cons a as ih =>
    rcases m with - | ⟨b, bs⟩
    · simp at h
    · have hlen : as.length = bs.length := by simpa using h
      simp only [List.length_cons, List.range_succ_eq_map, List.filter_cons]
      have hshift : ((List.range as.length).map Nat.succ).filter
          (fun i => (b :: bs).getD i true = false) =
          ((List.range as.length).filter
            (fun i => bs.getD i true = false)).map Nat.succ := by
        rw [List.filter_map]
        rfl
      cases b with
      | false =>
        simp only [keepFalse, Bool.false_eq_true, if_false, List.getD_cons_zero,
          hshift]
        simp only [decide_eq_true_eq, if_pos rfl, List.map_cons,
          List.getD_cons_zero]
        congr 1
        rw [ih bs hlen, List.map_map]
        apply List.map_congr_left
        intro i _
        simp [Function.comp, List.getD_cons_succ]
      | true =>
        simp only [keepFalse, if_true, List.getD_cons_zero, hshift]
        rw [if_neg (by simp)]
        rw [ih bs hlen, List.map_map]
        apply List.map_congr_left
        intro i _
        simp [Function.comp, List.getD_cons_succ]

lemma keepFalse_length_eq {α β : Type} (l1 : List α) (l2 : List β)
    (m : List Bool) (h : l1.length = l2.length) :
    (keepFalse l1 m).length = (keepFalse l2 m).length := by
  induction l1 generalizing l2 m with
  | nil =>
    rcases l2 with - | ⟨b2, bs2⟩
    · simp [keepFalse]
    · simp at h
  | cons a as ih =>
    rcases l2 with - | ⟨b2, bs2⟩
    · simp at h
    · have hlen : as.length = bs2.length := by simpa using h
      rcases m with - | ⟨mb, ms⟩
      · simp [keepFalse]
      · cases mb with
        | false => simp [keepFalse, ih bs2 ms hlen]
        | true => simp [keepFalse, ih bs2 ms hlen]

lemma keepFalse_map_self {α : Type} (l : List α) (f : α → Bool) :
    keepFalse l (l.map f) = l.filter (fun a => !(f a)) := by
  induction l with
  | nil => simp [keepFalse]
  | cons a as ih =>
    simp only [List.map_cons, keepFalse, List.filter_cons]
    cases h : f a <;> simp [h, ih]

lemma keepFalse_all_false {α : Type} (l : List α) (m : List Bool)
    (hm : ∀ b ∈ m, b = false) (hlen : l.length = m.length) :
    keepFalse l m = l := by
  induction l generalizing m with
  | nil => simp [keepFalse]
  | cons a as ih =>
    rcases m with - | ⟨b, bs⟩
    · simp at hlen
    · have hb : b = false := hm b (List.mem_cons_self b bs)
      subst hb
      simp only [keepFalse, Bool.false_eq_true, if_false, List.cons.injEq,
        true_and]
      exact ih bs (fun x hx => hm x (List.mem_cons_of_mem _ hx))
        (by simpa using hlen)

lemma keepFalse_all_true {α : Type} (l : List α) (m : List Bool)
    (hm : ∀ b ∈ m, b = true) (hlen : l.length = m.length) :
    keepFalse l m = [] := by
  induction l generalizing m with
  | nil => simp [keepFalse]
  | cons a as ih =>
    rcases m with - | ⟨b, bs⟩
    · simp at hlen
    · have hb : b = true := hm b (List.mem_cons_self b bs)
      subst hb
      simp only [keepFalse, if_true]
      exact ih bs (fun x hx => hm x (List.mem_cons_of_mem _ hx))
        (by simpa using hlen)

lemma delete_atoms_wellFormed {α : Type} (c : AtomCluster α)
    (mask : List Bool) (hwf : c.wellFormed) :
    (c.delete_atoms mask).wellFormed := by
  constructor
  · exact keepFalse_length_eq c.positions c.atom_ids mask
      (hwf.1.trans hwf.2.symm)
  · rfl

lemma length_filter_split {α : Type} (l : List α) (f g : α → Bool) :
    (l.filter f).length = (l.filter (fun a => g a && f a)).length +
      (l.filter (fun a => !(g a) && f a)).length := by
  induction l with
  | nil => simp
  | cons a as ih =>
    cases h1 : g a <;> cases h2 : f a <;>
      simp [List.filter_cons, h1, h2, ih] <;> omega

lemma qmod_half (m : ℚ) : qmod (m / 2) m = m / 2 := by
  unfold qmod
  rcases eq_or_ne m 0 with h | h
  · simp [h]
  · have hd : m / 2 / m = 1 / 2 := by field_simp; ring
    rw [hd]
    norm_num

lemma minImageDistSq_self (b : Box) (p : V3 ℚ) : minImageDistSq b p p = 0 := by
  unfold minImageDistSq V3.normSq V3.dot
  simp only [sub_self, V3.sub_x, V3.sub_y, V3.sub_z]
  show (let w : V3 ℚ := ⟨qmod (0 + b.boxSize.x / 2) b.boxSize.x - b.boxSize.x / 2,
      qmod (0 + b.boxSize.y / 2) b.boxSize.y - b.boxSize.y / 2,
      qmod (0 + b.boxSize.z / 2) b.boxSize.z - b.boxSize.z / 2⟩
    w.x * w.x + w.y * w.y + w.z * w.z) = 0
  simp [qmod_half]

lemma wrapCoord_mem (mn s x : ℚ) (hs : 0 < s) :
    mn ≤ wrapCoord mn s x ∧ wrapCoord mn s x < mn + s := by
  unfold wrapCoord
  constructor
  · linarith [qmod_nonneg (x - mn) s hs]
  · linarith [qmod_lt (x - mn) s hs]

lemma wrapCoord_eq_self (mn s x : ℚ) (hs : 0 < s) (h0 : mn ≤ x)
    (h1 : x < mn + s) : wrapCoord mn s x = x := by
  unfold wrapCoord
  rw [qmod_eq_self (x - mn) s hs (by linarith) (by linarith)]
  ring

lemma wrapCoord_idem (mn s x : ℚ) (hs : 0 < s) :
    wrapCoord mn s (wrapCoord mn s x) = wrapCoord mn s x :=
  wrapCoord_eq_self mn s _ hs (wrapCoord_mem mn s x hs).1
    (wrapCoord_mem mn s x hs).2

lemma wrapV3_idem (b : Box) (p : V3 ℚ) (hx : 0 < b.boxSize.x)
    (hy : 0 < b.boxSize.y) (hz : 0 < b.boxSize.z) :
    b.wrapV3 (b.wrapV3 p) = b.wrapV3 p := by
  unfold Box.wrapV3
  simp only [wrapCoord_idem _ _ _ hx, wrapCoord_idem _ _ _ hy,
    wrapCoord_idem _ _ _ hz]

/-! ## Claim theorems -/

/-- C4 counterexample: `CarbonNanotube(n=5, p=5)` generates `200`
raw candidate positions before the wrap-and-deduplicate step, not
`4·5·5 = 100` as claimed. -/
theorem claim_C4_cex :
    (rawPos 5 5 (1.42 : ℝ)).length = 200 ∧ (200 : ℕ) ≠ 4 * 5 * 5 := by
  constructor
  · rw [rawPos_length]
  · norm_num

/-- C4 (amended): the raw candidate count before deduplication is
`8·n·p` (the flat patch enumerates `2n` columns × 2 rows × 2 basis
atoms, replicated `p` times); in particular `CarbonNanotube(n=5, p=5)`
generates `8·5·5 = 200` raw candidates. -/
theorem claim_C4 :
    (∀ (n p : ℕ) (d : ℝ), (rawPos n p d).length = 8 * n * p) ∧
    (rawPos 5 5 (1.42 : ℝ)).length = 8 * 5 * 5 :=
  ⟨fun n p d => rawPos_length n p d, rawPos_length 5 5 (1.42 : ℝ)⟩

lemma norm3_zaxis (z0 z1 : ℝ) (h : z0 < z1) :
    norm3 ((⟨0, 0, z1⟩ : V3 ℝ) - ⟨0, 0, z0⟩) = z1 - z0 := by
  unfold norm3 V3.normSq V3.dot
  simp only [V3.sub_x, V3.sub_y, V3.sub_z, sub_zero, sub_self]
  rw [show (0 : ℝ) * 0 + 0 * 0 + (z1 - z0) * (z1 - z0) = (z1 - z0) ^ 2 by ring]
  exact Real.sqrt_sq (by linarith)

lemma cntAxisDir_zaxis (z0 z1 : ℝ) (h : z0 < z1) :
    cntAxisDir ⟨0, 0, z0⟩ ⟨0, 0, z1⟩ = ⟨0, 0, 1⟩ := by
  have hne : z1 - z0 ≠ 0 := by linarith
  unfold cntAxisDir
  rw [norm3_zaxis z0 z1 h]
  ext
  · simp
  · simp
  · simp only [V3.smul_z, V3.sub_z]
    field_simp

lemma cntProjection_zaxis (z0 z1 x y z : ℝ) (h : z0 < z1) :
    cntProjection ⟨0, 0, z0⟩ ⟨0, 0, z1⟩ ⟨x, y, z⟩ = z - z0 := by
  unfold cntProjection
  rw [cntAxisDir_zaxis z0 z1 h]
  unfold V3.dot
  simp

lemma cntPerpDist_zaxis (z0 z1 x y z : ℝ) (h : z0 < z1) :
    cntPerpDist ⟨0, 0, z0⟩ ⟨0, 0, z1⟩ ⟨x, y, z⟩ = Real.sqrt (x ^ 2 + y ^ 2) := by
  unfold cntPerpDist
  rw [cntProjection_zaxis z0 z1 x y z h, cntAxisDir_zaxis z0 z1 h]
  unfold norm3 V3.normSq V3.dot V3.smul
  simp only [V3.sub_x, V3.sub_y, V3.sub_z, mul_zero, mul_one, sub_zero,
    sub_self]
  congr 1
  ring

/-- C2: `get_nanotube_axis` fails (returns no axis) if and only if
one of the two z-split end-atom groups does not contain exactly `2n`
atoms; when both groups contain exactly `2n` atoms it returns the
pair of group centroids. -/
theorem claim_C2 (b : Box) (ps : List (V3 ℚ)) (n : ℕ) (hn : 1 ≤ n) :
    (getNanotubeAxis b ps n = none ↔
      ¬((group1 b ps).length = 2 * n ∧ (group2 b ps).length = 2 * n)) ∧
    ((group1 b ps).length = 2 * n → (group2 b ps).length = 2 * n →
      getNanotubeAxis b ps n =
        some (centroid (group1 b ps), centroid (group2 b ps))) := by
  by_cases hE : (endAtoms b ps).isEmpty
  · have h1 : group1 b ps = [] := by
      unfold group1
      rw [List.isEmpty_iff.1 hE]
      simp
    have hne : ¬((group1 b ps).length = 2 * n ∧
        (group2 b ps).length = 2 * n) := by
      rintro ⟨hg1, -⟩
      rw [h1] at hg1
      simp at hg1
      omega
    refine ⟨⟨fun _ => hne, fun _ => ?_⟩, fun hg1 hg2 => absurd ⟨hg1, hg2⟩ hne⟩
    unfold getNanotubeAxis
    rw [if_pos hE]
  · unfold getNanotubeAxis
    rw [if_neg hE]
    constructor
    · by_cases hg : (group1 b ps).length = 2 * n ∧ (group2 b ps).length = 2 * n
      · rw [if_pos hg]
        simp [hg]
      · rw [if_neg hg]
        simp [hg]
    · intro hg1 hg2
      rw [if_pos ⟨hg1, hg2⟩]

/-- C1: `delete_atoms_in_cnt` deletes exactly the atoms whose
projection onto the axis direction lies within `[-0.01,
axis_length + 0.01]` and whose perpendicular distance to the axis
line is at most the tube radius; in particular, for a tube of radius
`r` with axis along z from `z0` to `z1`, an atom `(x, y, z)` with
`√(x² + y²) < r` and `z0 ≤ z ≤ z1` is deleted, while an atom at
perpendicular distance `r + 1` survives. -/
theorem claim_C1 (s e : V3 ℝ) (r : ℝ) (ps : List (V3 ℝ)) (p : V3 ℝ)
    (z0 z1 x y z : ℝ) (hz : z0 < z1) :
    (p ∈ deleteAtomsInCnt s e r ps ↔ p ∈ ps ∧ ¬ cntDeleteMask s e r p) ∧
    (cntDeleteMask s e r p ↔
      ((-0.01 ≤ cntProjection s e p ∧
        cntProjection s e p ≤ norm3 (e - s) + 0.01) ∧
      cntPerpDist s e p ≤ r)) ∧
    (Real.sqrt (x ^ 2 + y ^ 2) < r → z0 ≤ z → z ≤ z1 →
      cntDeleteMask ⟨0, 0, z0⟩ ⟨0, 0, z1⟩ r ⟨x, y, z⟩) ∧
    (cntPerpDist s e p = r + 1 → ¬ cntDeleteMask s e r p) := by
  refine ⟨?_, Iff.rfl, ?_, ?_⟩
  · unfold deleteAtomsInCnt
    rw [List.mem_filter]
    simp
  · intro hxy hz0 hz1
    refine ⟨⟨?_, ?_⟩, ?_⟩
    · rw [cntProjection_zaxis z0 z1 x y z hz]
      norm_num
      linarith
    · rw [cntProjection_zaxis z0 z1 x y z hz, norm3_zaxis z0 z1 hz]
      norm_num
      linarith
    · rw [cntPerpDist_zaxis z0 z1 x y z hz]
      exact le_of_lt hxy
  · intro hpd hmask
    have := hmask.2
    rw [hpd] at this
    linarith

/-- C1 witness: the cylinder-deletion mask evaluated with the axis
from `(0,0,0)` to `(0,0,1)`, radius `1`, on the one-atom list at the
origin. -/
theorem claim_C1_witness :
    (0 : ℝ) < 1 ∧
    (((⟨0, 0, 0⟩ : V3 ℝ) ∈
        deleteAtomsInCnt ⟨0, 0, 0⟩ ⟨0, 0, 1⟩ 1 [⟨0, 0, 0⟩] ↔
      (⟨0, 0, 0⟩ : V3 ℝ) ∈ [(⟨0, 0, 0⟩ : V3 ℝ)] ∧
        ¬ cntDeleteMask ⟨0, 0, 0⟩ ⟨0, 0, 1⟩ 1 ⟨0, 0, 0⟩) ∧
    (cntDeleteMask ⟨0, 0, 0⟩ ⟨0, 0, 1⟩ 1 ⟨0, 0, 0⟩ ↔
      ((-0.01 ≤ cntProjection ⟨0, 0, 0⟩ ⟨0, 0, 1⟩ ⟨0, 0, 0⟩ ∧
        cntProjection ⟨0, 0, 0⟩ ⟨0, 0, 1⟩ ⟨0, 0, 0⟩ ≤
          norm3 ((⟨0, 0, 1⟩ : V3 ℝ) - ⟨0, 0, 0⟩) + 0.01) ∧
      cntPerpDist ⟨0, 0, 0⟩ ⟨0, 0, 1⟩ ⟨0, 0, 0⟩ ≤ 1)) ∧
    (Real.sqrt ((0 : ℝ) ^ 2 + (0 : ℝ) ^ 2) < 1 → (0 : ℝ) ≤ 0 →
      (0 : ℝ) ≤ 1 → cntDeleteMask ⟨0, 0, 0⟩ ⟨0, 0, 1⟩ 1 ⟨0, 0, 0⟩) ∧
    (cntPerpDist ⟨0, 0, 0⟩ ⟨0, 0, 1⟩ ⟨0, 0, 0⟩ = 1 + 1 →
      ¬ cntDeleteMask ⟨0, 0, 0⟩ ⟨0, 0, 1⟩ 1 ⟨0, 0, 0⟩)) :=
  ⟨by norm_num,
    claim_C1 ⟨0, 0, 0⟩ ⟨0, 0, 1⟩ 1 [⟨0, 0, 0⟩] ⟨0, 0, 0⟩ 0 1 0 0 0
      (by norm_num)⟩

/-- C2 witness: on the empty position list with `n = 1` the axis
computation fails, and both groups are empty (size `0 ≠ 2`). -/
theorem claim_C2_witness :
    1 ≤ 1 ∧
    ((getNanotubeAxis (Box.mk ⟨100, 100, 100⟩) [] 1 = none ↔
      ¬((group1 (Box.mk ⟨100, 100, 100⟩) []).length = 2 * 1 ∧
        (group2 (Box.mk ⟨100, 100, 100⟩) []).length = 2 * 1)) ∧
    ((group1 (Box.mk ⟨100, 100, 100⟩) []).length = 2 * 1 →
      (group2 (Box.mk ⟨100, 100, 100⟩) []).length = 2 * 1 →
      getNanotubeAxis (Box.mk ⟨100, 100, 100⟩) [] 1 =
        some (centroid (group1 (Box.mk ⟨100, 100, 100⟩) []),
          centroid (group2 (Box.mk ⟨100, 100, 100⟩) [])))) :=
  ⟨le_refl 1, claim_C2 (Box.mk ⟨100, 100, 100⟩) [] 1 (le_refl 1)⟩

/-- C3 counterexample: a single isolated atom has fewer than 3
neighbors within 1.5 length units, yet `get_nanotube_axis` does not
classify it as an open-end atom (the code keeps atoms whose
close-atom count — self included — is exactly 3). -/
theorem claim_C3_cex :
    (⟨0, 0, 0⟩ : V3 ℚ) ∉ endAtoms (Box.mk ⟨10, 10, 10⟩) [⟨0, 0, 0⟩] ∧
    closeCount (Box.mk ⟨10, 10, 10⟩) [⟨0, 0, 0⟩] ⟨0, 0, 0⟩ < 3 := by
  norm_num [endAtoms, closeCount, minImageDistSq_self, List.filter]

/-- C3 (amended): the atoms classified as open-end atoms are exactly
those with exactly 3 close atoms — the atom itself included, i.e.
exactly 2 neighbors besides itself — within 1.5 length units, where
all pairwise distances are taken under the box's minimum-image
convention (compared squared: `d < 1.5` iff `d² < 9/4`). -/
theorem claim_C3 (b : Box) (ps : List (V3 ℚ)) (p : V3 ℚ)
    (hp : p ∈ ps) (hc : ps.count p = 1) :
    p ∈ endAtoms b ps ↔
      (ps.filter (fun q => !(decide (q = p)) &&
        decide (minImageDistSq b p q < 9 / 4))).length = 2 := by
  have hmem : p ∈ endAtoms b ps ↔ closeCount b ps p = 3 := by
    unfold endAtoms
    rw [List.mem_filter]
    simp [hp]
  have hsplit := length_filter_split ps
    (fun q => decide (minImageDistSq b p q < 9 / 4))
    (fun q => decide (q = p))
  have heq1 : (ps.filter (fun q => decide (q = p) &&
      decide (minImageDistSq b p q < 9 / 4))).length = 1 := by
    have hcongr : (fun q => decide (q = p) &&
        decide (minImageDistSq b p q < 9 / 4)) = (fun q => q == p) := by
      funext q
      by_cases h : q = p
      · subst h
        simp [minImageDistSq_self]
      · simp [h]
    rw [hcongr, ← List.countP_eq_length_filter]
    exact hc
  rw [hmem]
  unfold closeCount
  rw [hsplit, heq1]
  omega

/-- C3 witness: the amended classification evaluated on a triangle of
three mutually close atoms, each of which has exactly two neighbors
besides itself and is classified as an end atom. -/
theorem claim_C3_witness :
    ((⟨0, 0, 0⟩ : V3 ℚ) ∈ [(⟨0, 0, 0⟩ : V3 ℚ), ⟨1, 0, 0⟩, ⟨0, 1, 0⟩] ∧
      ([(⟨0, 0, 0⟩ : V3 ℚ), ⟨1, 0, 0⟩, ⟨0, 1, 0⟩]).count ⟨0, 0, 0⟩ = 1) ∧
    ((⟨0, 0, 0⟩ : V3 ℚ) ∈ endAtoms (Box.mk ⟨100, 100, 100⟩)
        [⟨0, 0, 0⟩, ⟨1, 0, 0⟩, ⟨0, 1, 0⟩] ↔
      (([(⟨0, 0, 0⟩ : V3 ℚ), ⟨1, 0, 0⟩, ⟨0, 1, 0⟩]).filter
        (fun q => !(decide (q = (⟨0, 0, 0⟩ : V3 ℚ))) &&
          decide (minImageDistSq (Box.mk ⟨100, 100, 100⟩) ⟨0, 0, 0⟩ q <
            9 / 4))).length = 2) :=
  ⟨⟨by decide, by decide⟩,
    claim_C3 (Box.mk ⟨100, 100, 100⟩) [⟨0, 0, 0⟩, ⟨1, 0, 0⟩, ⟨0, 1, 0⟩]
      ⟨0, 0, 0⟩ (by decide) (by decide)⟩

/-- C10: end atoms are split into the two groups by strict comparison
of the z-coordinate against the midpoint `(z_min + z_max)/2`; an end
atom whose z-coordinate equals the midpoint exactly belongs to
neither group, so it contributes to neither group centroid and to
neither of the group counts checked against `2n`. -/
theorem claim_C10 (b : Box) (ps : List (V3 ℚ)) (p : V3 ℚ)
    (hp : p ∈ endAtoms b ps) (hz : p.z = zMid b ps) :
    p ∉ group1 b ps ∧ p ∉ group2 b ps ∧
    (∀ q ∈ group1 b ps, q.z < zMid b ps) ∧
    (∀ q ∈ group2 b ps, zMid b ps < q.z) := by
  refine ⟨?_, ?_, ?_, ?_⟩
  · intro hmem
    have := (List.mem_filter.1 hmem).2
    simp only [decide_eq_true_eq] at this
    rw [hz] at this
    exact lt_irrefl _ this
  · intro hmem
    have := (List.mem_filter.1 hmem).2
    simp only [decide_eq_true_eq] at this
    rw [hz] at this
    exact lt_irrefl _ this
  · intro q hq
    have := (List.mem_filter.1 hq).2
    simpa using this
  · intro q hq
    have := (List.mem_filter.1 hq).2
    simpa using this

/-- The three-atom configuration used to evaluate C10: three
coincident atoms at `z = 5`, so each has a close-atom count of `3`
(every atom is an end atom) and each sits exactly at the z midpoint. -/
def c10ps : List (V3 ℚ) :=
  [⟨0, 0, 5⟩, ⟨0, 0, 5⟩, ⟨0, 0, 5⟩]

/-- C10 witness: the atom `(0, 0, 5)` is an end atom lying exactly
at the z midpoint `5` and lands in neither group. -/
theorem claim_C10_witness :
    ((⟨0, 0, 5⟩ : V3 ℚ) ∈ endAtoms (Box.mk ⟨100, 100, 100⟩) c10ps ∧
      (⟨0, 0, 5⟩ : V3 ℚ).z = zMid (Box.mk ⟨100, 100, 100⟩) c10ps) ∧
    ((⟨0, 0, 5⟩ : V3 ℚ) ∉ group1 (Box.mk ⟨100, 100, 100⟩) c10ps ∧
    (⟨0, 0, 5⟩ : V3 ℚ) ∉ group2 (Box.mk ⟨100, 100, 100⟩) c10ps ∧
    (∀ q ∈ group1 (Box.mk ⟨100, 100, 100⟩) c10ps,
      q.z < zMid (Box.mk ⟨100, 100, 100⟩) c10ps) ∧
    (∀ q ∈ group2 (Box.mk ⟨100, 100, 100⟩) c10ps,
      zMid (Box.mk ⟨100, 100, 100⟩) c10ps < q.z)) :=
  ⟨⟨by norm_num [endAtoms, closeCount, minImageDistSq_self, List.filter, c10ps],
    by norm_num [zMid, endAtoms, closeCount, minImageDistSq_self, List.filter,
      c10ps, List.min?, List.max?]⟩,
    claim_C10 (Box.mk ⟨100, 100, 100⟩) c10ps ⟨0, 0, 5⟩
      (by norm_num [endAtoms, closeCount, minImageDistSq_self, List.filter,
        c10ps])
      (by norm_num [zMid, endAtoms, closeCount, minImageDistSq_self,
        List.filter, c10ps, List.min?, List.max?])⟩

/-- C5 counterexample: `Graphene(nx=1, ny=1)` has `4` atoms, not
`2·nx·ny = 2` as claimed. -/
theorem claim_C5_cex :
    (graphenePositions 1 1 (1.42 : ℝ)).length = 4 ∧ (4 : ℕ) ≠ 2 * 1 * 1 := by
  constructor
  · rw [graphenePositions_length]
  · norm_num

/-- C5 (amended): the graphene generator enumerates `nx × 2·ny` unit
cells in row-major (x outer, y inner) order, emitting the two basis
atoms of each cell consecutively, and assigns sequential 1-based ids
in emission order; a sheet therefore has exactly `4·nx·ny` atoms with
ids `1` through `4·nx·ny`. -/
theorem claim_C5 (nx ny : ℕ) (d : ℝ) (i j : ℕ)
    (hi : i < nx) (hj : j < 2 * ny) :
    (graphenePositions nx ny d).length = 4 * nx * ny ∧
    grapheneAtomIds nx ny d = List.range' 1 (4 * nx * ny) ∧
    (graphenePositions nx ny d)[2 * (i * (2 * ny) + j)]? =
      some (V3.nsmul i (grLatA1 d) + V3.nsmul j (grLatA2 d) + ⟨0, 0, 0⟩) ∧
    (graphenePositions nx ny d)[2 * (i * (2 * ny) + j) + 1]? =
      some (V3.nsmul i (grLatA1 d) + V3.nsmul j (grLatA2 d) +
        ⟨Real.sqrt 3 * d / 2, d / 2, 0⟩) := by
  refine ⟨graphenePositions_length nx ny d, ?_, ?_, ?_⟩
  · unfold grapheneAtomIds
    rw [graphenePositions_length]
  · exact (graphenePositions_getElem nx ny d i j hi hj).1
  · exact (graphenePositions_getElem nx ny d i j hi hj).2

/-- C5 witness: the amended claim evaluated on `Graphene(1, 1)` at
cell `(0, 0)`. -/
theorem claim_C5_witness :
    (0 < 1 ∧ 0 < 2 * 1) ∧
    ((graphenePositions 1 1 (1.42 : ℝ)).length = 4 * 1 * 1 ∧
    grapheneAtomIds 1 1 (1.42 : ℝ) = List.range' 1 (4 * 1 * 1) ∧
    (graphenePositions 1 1 (1.42 : ℝ))[2 * (0 * (2 * 1) + 0)]? =
      some (V3.nsmul 0 (grLatA1 (1.42 : ℝ)) + V3.nsmul 0 (grLatA2 (1.42 : ℝ)) +
        ⟨0, 0, 0⟩) ∧
    (graphenePositions 1 1 (1.42 : ℝ))[2 * (0 * (2 * 1) + 0) + 1]? =
      some (V3.nsmul 0 (grLatA1 (1.42 : ℝ)) + V3.nsmul 0 (grLatA2 (1.42 : ℝ)) +
        ⟨Real.sqrt 3 * (1.42 : ℝ) / 2, (1.42 : ℝ) / 2, 0⟩)) :=
  ⟨⟨by norm_num, by norm_num⟩,
    claim_C5 1 1 (1.42 : ℝ) 0 0 (by norm_num) (by norm_num)⟩

/-- C7: `wrap_cluster` remaps every coordinate `x` on each axis to
`((x - box_min) mod box_size) + box_min`; afterwards every coordinate
lies in the half-open interval `[box_min, box_min + box_size)`; a
coordinate already in that interval is left unchanged, and wrapping a
second time leaves every position unchanged (idempotence). -/
theorem claim_C7 (b : Box) (c : AtomCluster ℚ) (mn s x : ℚ)
    (hs : 0 < s) (hx : 0 < b.boxSize.x) (hy : 0 < b.boxSize.y)
    (hz : 0 < b.boxSize.z) :
    (wrapCoord mn s x = qmod (x - mn) s + mn) ∧
    (mn ≤ wrapCoord mn s x ∧ wrapCoord mn s x < mn + s) ∧
    (mn ≤ x → x < mn + s → wrapCoord mn s x = x) ∧
    (∀ q ∈ (b.wrap_cluster c).positions,
      (b.boxMin.x ≤ q.x ∧ q.x < b.boxMin.x + b.boxSize.x) ∧
      (b.boxMin.y ≤ q.y ∧ q.y < b.boxMin.y + b.boxSize.y) ∧
      (b.boxMin.z ≤ q.z ∧ q.z < b.boxMin.z + b.boxSize.z)) ∧
    b.wrap_cluster (b.wrap_cluster c) = b.wrap_cluster c := by
  refine ⟨rfl, wrapCoord_mem mn s x hs, wrapCoord_eq_self mn s x hs, ?_, ?_⟩
  · intro q hq
    simp only [Box.wrap_cluster, List.mem_map] at hq
    obtain ⟨p, -, hp⟩ := hq
    subst hp
    exact ⟨wrapCoord_mem _ _ _ hx, wrapCoord_mem _ _ _ hy,
      wrapCoord_mem _ _ _ hz⟩
  · unfold Box.wrap_cluster
    simp only [List.map_map]
    congr 1
    apply List.map_congr_left
    intro p _
    exact wrapV3_idem b p hx hy hz

/-- C7 witness: wrapping evaluated in the `10 × 10 × 10` box on the
single atom `(17, -23, 5)` and the coordinate `x = 3` of the interval
`[-5, 5)`. -/
theorem claim_C7_witness :
    ((0 : ℚ) < 10 ∧
      (0 : ℚ) < (Box.mk ⟨10, 10, 10⟩).boxSize.x ∧
      (0 : ℚ) < (Box.mk ⟨10, 10, 10⟩).boxSize.y ∧
      (0 : ℚ) < (Box.mk ⟨10, 10, 10⟩).boxSize.z) ∧
    ((wrapCoord (-5) 10 3 = qmod (3 - -5) 10 + -5) ∧
    ((-5 : ℚ) ≤ wrapCoord (-5) 10 3 ∧ wrapCoord (-5) 10 3 < -5 + 10) ∧
    ((-5 : ℚ) ≤ 3 → (3 : ℚ) < -5 + 10 → wrapCoord (-5) 10 3 = 3) ∧
    (∀ q ∈ ((Box.mk ⟨10, 10, 10⟩).wrap_cluster
        ⟨[⟨17, -23, 5⟩], [1], 1⟩).positions,
      ((Box.mk ⟨10, 10, 10⟩).boxMin.x ≤ q.x ∧
        q.x < (Box.mk ⟨10, 10, 10⟩).boxMin.x +
          (Box.mk ⟨10, 10, 10⟩).boxSize.x) ∧
      ((Box.mk ⟨10, 10, 10⟩).boxMin.y ≤ q.y ∧
        q.y < (Box.mk ⟨10, 10, 10⟩).boxMin.y +
          (Box.mk ⟨10, 10, 10⟩).boxSize.y) ∧
      ((Box.mk ⟨10, 10, 10⟩).boxMin.z ≤ q.z ∧
        q.z < (Box.mk ⟨10, 10, 10⟩).boxMin.z +
          (Box.mk ⟨10, 10, 10⟩).boxSize.z)) ∧
    (Box.mk ⟨10, 10, 10⟩).wrap_cluster
        ((Box.mk ⟨10, 10, 10⟩).wrap_cluster ⟨[⟨17, -23, 5⟩], [1], 1⟩) =
      (Box.mk ⟨10, 10, 10⟩).wrap_cluster ⟨[⟨17, -23, 5⟩], [1], 1⟩) :=
  ⟨⟨by norm_num, by norm_num, by norm_num, by norm_num⟩,
    claim_C7 (Box.mk ⟨10, 10, 10⟩) ⟨[⟨17, -23, 5⟩], [1], 1⟩ (-5) 10 3
      (by norm_num) (by norm_num) (by norm_num) (by norm_num)⟩

/-- C6: every atom of every generated graphene sheet has z-coordinate
exactly `0`, and `Graphene(nx=1, ny=1)` with the default bond length
`1.42` produces exactly `4` atoms. -/
theorem claim_C6 :
    (∀ (nx ny : ℕ) (d : ℝ),
      (graphenePositions nx ny d).map V3.z = List.replicate (4 * nx * ny) 0) ∧
    (graphenePositions 1 1 (1.42 : ℝ)).length = 4 :=
  ⟨graphenePositions_z, by rw [graphenePositions_length]⟩

/-- C8: on a boolean mask of length `num_atoms`, `delete_atoms` keeps
exactly the atoms (and ids) at the indices where the mask is `false`,
in their original relative order; afterwards
`len(positions) = len(atom_ids) = num_atoms`, and this length
equality is preserved by the other mutating cluster operations
(translate, wrap, dig_hole, rotate). -/
theorem claim_C8 (c : AtomCluster ℚ) (mask : List Bool) (v cen : V3 ℚ)
    (r : ℚ) (bx : Box) (cr : AtomCluster ℝ) (ax : V3 ℝ) (ang : ℝ)
    (ctr : Option (V3 ℝ))
    (hwf : c.wellFormed) (hm : mask.length = c.num_atoms)
    (hcr : cr.wellFormed) :
    ((c.delete_atoms mask).positions =
      ((List.range c.num_atoms).filter (fun i => mask.getD i true = false)).map
        (fun i => c.positions.getD i default) ∧
     (c.delete_atoms mask).atom_ids =
      ((List.range c.num_atoms).filter (fun i => mask.getD i true = false)).map
        (fun i => c.atom_ids.getD i default)) ∧
    (c.delete_atoms mask).wellFormed ∧
    (c.translate v).wellFormed ∧
    (bx.wrap_cluster c).wellFormed ∧
    (digHole cen r c).wellFormed ∧
    (cr.rotate ax ang ctr).wellFormed := by
  refine ⟨⟨?_, ?_⟩, delete_atoms_wellFormed c mask hwf, ?_, ?_, ?_, ?_⟩
  · show keepFalse c.positions mask = _
    rw [keepFalse_eq_select c.positions mask (hwf.1.trans hm.symm), hwf.1]
  · show keepFalse c.atom_ids mask = _
    rw [keepFalse_eq_select c.atom_ids mask (hwf.2.trans hm.symm), hwf.2]
  · exact ⟨by simpa [AtomCluster.translate] using hwf.1, hwf.2⟩
  · exact ⟨by simpa [Box.wrap_cluster] using hwf.1, hwf.2⟩
  · exact delete_atoms_wellFormed c _ hwf
  · exact ⟨by simpa [AtomCluster.rotate] using hcr.1, hcr.2⟩

/-- C9: `dig_hole` removes exactly the atoms whose Euclidean distance
to the center is at most the radius (the mask `digHoleMask` is the
inclusive-boundary distance comparison, stated squared and proved
equivalent to the `√` form in the first conjunct); afterwards no
remaining atom is within the radius, the removed count equals the
pre/post atom-count difference, a radius matching no atom is a no-op,
and a radius covering every atom leaves a structurally valid cluster
with zero atoms. -/
theorem claim_C9 (cen : V3 ℚ) (r : ℚ) (c : AtomCluster ℚ) (p0 : V3 ℚ)
    (hwf : c.wellFormed) :
    (digHoleMask cen r p0 ↔
      Real.sqrt (((p0 - cen).normSq : ℚ) : ℝ) ≤ (r : ℝ)) ∧
    (digHole cen r c).positions =
      c.positions.filter (fun p => !(decide (digHoleMask cen r p))) ∧
    (∀ p ∈ (digHole cen r c).positions, ¬ digHoleMask cen r p) ∧
    digHoleRemoved cen r c + (digHole cen r c).num_atoms = c.num_atoms ∧
    ((∀ p ∈ c.positions, ¬ digHoleMask cen r p) → digHole cen r c = c) ∧
    ((∀ p ∈ c.positions, digHoleMask cen r p) →
      (digHole cen r c).positions = [] ∧ (digHole cen r c).atom_ids = [] ∧
        (digHole cen r c).num_atoms = 0) := by
  have hsurv : (digHole cen r c).positions =
      c.positions.filter (fun p => !(decide (digHoleMask cen r p))) :=
    keepFalse_map_self c.positions _
  have hnum : (digHole cen r c).num_atoms =
      (c.positions.filter (fun p => !(decide (digHoleMask cen r p)))).length := by
    show (keepFalse c.atom_ids _).length = _
    rw [keepFalse_length_eq c.atom_ids c.positions _ (hwf.2.trans hwf.1.symm),
      keepFalse_map_self]
  have hrem : digHoleRemoved cen r c =
      (c.positions.filter (fun p => decide (digHoleMask cen r p))).length := by
    unfold digHoleRemoved
    rw [List.filter_map, List.length_map]
    congr 1
    apply List.filter_congr
    intro a _
    simp
  refine ⟨?_, hsurv, ?_, ?_, ?_, ?_⟩
  · unfold digHoleMask
    rw [Real.sqrt_le_iff]
    constructor
    · rintro ⟨h0, h2⟩
      exact ⟨by exact_mod_cast h0, by exact_mod_cast h2⟩
    · rintro ⟨h0, h2⟩
      exact ⟨by exact_mod_cast h0, by exact_mod_cast h2⟩
  · intro p hp
    rw [hsurv] at hp
    have := (List.mem_filter.1 hp).2
    simpa using this
  · rw [hrem, hnum, ← hwf.1]
    exact (List.length_eq_length_filter_add _).symm
  · intro h4
    rcases c with ⟨pos, ids, n⟩
    obtain ⟨hwf1, hwf2⟩ := hwf
    show AtomCluster.mk _ _ _ = _
    simp only [AtomCluster.mk.injEq]
    have hids : keepFalse ids
        (pos.map (fun p => decide (digHoleMask cen r p))) = ids := by
      apply keepFalse_all_false
      · intro b hb
        simp only [List.mem_map] at hb
        obtain ⟨a, ha, hab⟩ := hb
        simp [← hab, h4 a ha]
      · simp only [List.length_map]
        exact hwf2.trans hwf1.symm
    refine ⟨?_, hids, ?_⟩
    · rw [keepFalse_map_self]
      apply List.filter_eq_self.2
      intro a ha
      simp [h4 a ha]
    · rw [hids]
      exact hwf2
  · intro h5
    have hids : keepFalse c.atom_ids
        (c.positions.map (fun p => decide (digHoleMask cen r p))) = [] := by
      apply keepFalse_all_true
      · intro b hb
        simp only [List.mem_map] at hb
        obtain ⟨a, ha, hab⟩ := hb
        simp [← hab, h5 a ha]
      · simp only [List.length_map]
        exact hwf.2.trans hwf.1.symm
    refine ⟨?_, hids, ?_⟩
    · rw [hsurv]
      apply List.filter_eq_nil_iff.2
      intro a ha
      simp [h5 a ha]
    · show (keepFalse c.atom_ids _).length = 0
      rw [hids]
      rfl

/-- C9 witness: digging a hole of radius `2` at the origin out of the
two-atom cluster at `(1,0,0)` and `(5,0,0)`. -/
theorem claim_C9_witness :
    (AtomCluster.mk [(⟨1, 0, 0⟩ : V3 ℚ), ⟨5, 0, 0⟩] [1, 2] 2).wellFormed ∧
    ((digHoleMask ⟨0, 0, 0⟩ 2 (⟨1, 0, 0⟩ : V3 ℚ) ↔
      Real.sqrt ((((⟨1, 0, 0⟩ : V3 ℚ) - ⟨0, 0, 0⟩).normSq : ℚ) : ℝ) ≤
        ((2 : ℚ) : ℝ)) ∧
    (digHole ⟨0, 0, 0⟩ 2
        (AtomCluster.mk [(⟨1, 0, 0⟩ : V3 ℚ), ⟨5, 0, 0⟩] [1, 2] 2)).positions =
      ([(⟨1, 0, 0⟩ : V3 ℚ), ⟨5, 0, 0⟩]).filter
        (fun p => !(decide (digHoleMask ⟨0, 0, 0⟩ 2 p))) ∧
    (∀ p ∈ (digHole ⟨0, 0, 0⟩ 2
        (AtomCluster.mk [(⟨1, 0, 0⟩ : V3 ℚ), ⟨5, 0, 0⟩] [1, 2] 2)).positions,
      ¬ digHoleMask ⟨0, 0, 0⟩ 2 p) ∧
    digHoleRemoved ⟨0, 0, 0⟩ 2
        (AtomCluster.mk [(⟨1, 0, 0⟩ : V3 ℚ), ⟨5, 0, 0⟩] [1, 2] 2) +
      (digHole ⟨0, 0, 0⟩ 2
        (AtomCluster.mk [(⟨1, 0, 0⟩ : V3 ℚ), ⟨5, 0, 0⟩] [1, 2] 2)).num_atoms =
      (AtomCluster.mk [(⟨1, 0, 0⟩ : V3 ℚ), ⟨5, 0, 0⟩] [1, 2] 2).num_atoms ∧
    ((∀ p ∈ [(⟨1, 0, 0⟩ : V3 ℚ), ⟨5, 0, 0⟩], ¬ digHoleMask ⟨0, 0, 0⟩ 2 p) →
      digHole ⟨0, 0, 0⟩ 2
          (AtomCluster.mk [(⟨1, 0, 0⟩ : V3 ℚ), ⟨5, 0, 0⟩] [1, 2] 2) =
        AtomCluster.mk [(⟨1, 0, 0⟩ : V3 ℚ), ⟨5, 0, 0⟩] [1, 2] 2) ∧
    ((∀ p ∈ [(⟨1, 0, 0⟩ : V3 ℚ), ⟨5, 0, 0⟩], digHoleMask ⟨0, 0, 0⟩ 2 p) →
      (digHole ⟨0, 0, 0⟩ 2
        (AtomCluster.mk [(⟨1, 0, 0⟩ : V3 ℚ), ⟨5, 0, 0⟩] [1, 2] 2)).positions =
          [] ∧
      (digHole ⟨0, 0, 0⟩ 2
        (AtomCluster.mk [(⟨1, 0, 0⟩ : V3 ℚ), ⟨5, 0, 0⟩] [1, 2] 2)).atom_ids =
          [] ∧
      (digHole ⟨0, 0, 0⟩ 2
        (AtomCluster.mk [(⟨1, 0, 0⟩ : V3 ℚ), ⟨5, 0, 0⟩] [1, 2] 2)).num_atoms =
          0)) :=
  ⟨⟨rfl, rfl⟩,
    claim_C9 ⟨0, 0, 0⟩ 2 (AtomCluster.mk [(⟨1, 0, 0⟩ : V3 ℚ), ⟨5, 0, 0⟩] [1, 2] 2)
      ⟨1, 0, 0⟩ ⟨rfl, rfl⟩⟩

/-- C8 witness: deletion with mask `[true, false]` on a concrete
two-atom cluster, plus the other mutating operations on concrete
clusters. -/
theorem claim_C8_witness :
    ((AtomCluster.mk [(⟨1, 2, 3⟩ : V3 ℚ), ⟨4, 5, 6⟩] [1, 2] 2).wellFormed ∧
      ([true, false] : List Bool).length =
        (AtomCluster.mk [(⟨1, 2, 3⟩ : V3 ℚ), ⟨4, 5, 6⟩] [1, 2] 2).num_atoms ∧
      (AtomCluster.mk [(⟨1, 0, 0⟩ : V3 ℝ)] [1] 1).wellFormed) ∧
    ((((AtomCluster.mk [(⟨1, 2, 3⟩ : V3 ℚ), ⟨4, 5, 6⟩] [1, 2] 2).delete_atoms
        [true, false]).positions =
      ((List.range 2).filter
        (fun i => ([true, false] : List Bool).getD i true = false)).map
        (fun i => ([(⟨1, 2, 3⟩ : V3 ℚ), ⟨4, 5, 6⟩]).getD i default) ∧
     ((AtomCluster.mk [(⟨1, 2, 3⟩ : V3 ℚ), ⟨4, 5, 6⟩] [1, 2] 2).delete_atoms
        [true, false]).atom_ids =
      ((List.range 2).filter
        (fun i => ([true, false] : List Bool).getD i true = false)).map
        (fun i => ([(1 : ℤ), 2]).getD i default)) ∧
    ((AtomCluster.mk [(⟨1, 2, 3⟩ : V3 ℚ), ⟨4, 5, 6⟩] [1, 2] 2).delete_atoms
      [true, false]).wellFormed ∧
    ((AtomCluster.mk [(⟨1, 2, 3⟩ : V3 ℚ), ⟨4, 5, 6⟩] [1, 2] 2).translate
      ⟨1, 1, 1⟩).wellFormed ∧
    ((Box.mk ⟨10, 10, 10⟩).wrap_cluster
      (AtomCluster.mk [(⟨1, 2, 3⟩ : V3 ℚ), ⟨4, 5, 6⟩] [1, 2] 2)).wellFormed ∧
    (digHole ⟨0, 0, 0⟩ 1
      (AtomCluster.mk [(⟨1, 2, 3⟩ : V3 ℚ), ⟨4, 5, 6⟩] [1, 2] 2)).wellFormed ∧
    ((AtomCluster.mk [(⟨1, 0, 0⟩ : V3 ℝ)] [1] 1).rotate ⟨0, 0, 1⟩ 0
      none).wellFormed) :=
  ⟨⟨⟨rfl, rfl⟩, rfl, ⟨rfl, rfl⟩⟩,
    claim_C8 (AtomCluster.mk [(⟨1, 2, 3⟩ : V3 ℚ), ⟨4, 5, 6⟩] [1, 2] 2)
      [true, false] ⟨1, 1, 1⟩ ⟨0, 0, 0⟩ 1 (Box.mk ⟨10, 10, 10⟩)
      (AtomCluster.mk [(⟨1, 0, 0⟩ : V3 ℝ)] [1] 1) ⟨0, 0, 1⟩ 0 none
      ⟨rfl, rfl⟩ rfl ⟨rfl, rfl⟩⟩
